import Mathlib

/-!
Verification development for the migen WB2LASMI bridge
(`migen/bus/wishbone2lasmi.py`), a write-back direct-mapped cache
controller between a narrow Wishbone front-end and a wide LASMI
back-end.

The core controller is embedded as a cycle-accurate step function over
an explicit machine state (FSM state, tag store, data store, and the
registered read-address / offset registers of the memory ports).
Generic helpers of the repository that the controller instantiates
(`split`, `displacer`, `chooser`, `log2_int`, `FSM.delayed_enter`,
`Memory`) are modelled from the specification where noted.
-/

namespace WB2LASMI

/-- Construction-time configuration of the bridge: cache capacity in
front-end words, LASMI data width and address width in bits, Wishbone
(front-end) data width in bits, and the two declared back-end
latencies. -/
structure Config where
  cachesize : Nat
  lasmim_dw : Nat
  lasmim_aw : Nat
  wb_data_width : Nat
  write_latency : Nat
  read_latency : Nat
deriving Repr, DecidableEq

/-- Fuel-indexed floor-log helper; `log2f n n` computes the number of
doublings of 1 needed to reach at least `n`, matching the loop of the
repository's `log2_int` on powers of two. -/
def log2f : Nat → Nat → Nat
  | 0, _ => 0
  | fuel + 1, n => if n ≤ 1 then 0 else log2f fuel (n / 2) + 1

/-- Modelled from the spec: the exponent computed by `log2_int` for a
power of two (the helper itself is repository code outside `src/`). -/
def flog2 (n : Nat) : Nat := log2f n n

/-- Width of the line-offset field: `log2(lasmim.dw // data_width)`. -/
def offsetbits (c : Config) : Nat := flog2 (c.lasmim_dw / c.wb_data_width)

/-- Full front-end address width as computed by the source:
`lasmim.aw + offsetbits`. -/
def addressbits (c : Config) : Nat := c.lasmim_aw + offsetbits c

/-- Width of the line-index field: `log2_int(cachesize) - offsetbits`. -/
def linebits (c : Config) : Nat := flog2 c.cachesize - offsetbits c

/-- Width of the tag field: `addressbits - linebits`. -/
def tagbits (c : Config) : Nat := addressbits c - linebits c

/-- Modelled from the spec: the `split` helper's lowest field — the
line-offset bits of a front-end address. -/
def adr_offset (c : Config) (adr : Nat) : Nat := adr % 2 ^ offsetbits c

/-- Modelled from the spec: the `split` helper's middle field — the
line-index bits of a front-end address. -/
def adr_line (c : Config) (adr : Nat) : Nat :=
  adr / 2 ^ offsetbits c % 2 ^ linebits c

/-- Modelled from the spec: the `split` helper's highest field — the
tag bits of a front-end address. -/
def adr_tag (c : Config) (adr : Nat) : Nat :=
  adr / 2 ^ (offsetbits c + linebits c) % 2 ^ tagbits c

/-- Number of front-end words per back-end line. -/
def ratio (c : Config) : Nat := c.lasmim_dw / c.wb_data_width

/-- Bytes per front-end word (the Wishbone byte-select width). -/
def dw8 (c : Config) : Nat := c.wb_data_width / 8

/-- Bytes per back-end line (the width of the data-store byte
write-enable vector, `we_granularity=8`). -/
def nbytes (c : Config) : Nat := c.lasmim_dw / 8

/-- Control FSM states of the source, with the anonymous delay
sub-states created by `delayed_enter` represented by a countdown of
remaining delay cycles. -/
inductive FsmState where
  | IDLE
  | TEST_HIT
  | EVICT_REQUEST
  | EVICT_WAIT_DATA_ACK
  | EVICT_DELAY (k : Nat)
  | EVICT_DATA
  | REFILL_WRTAG
  | REFILL_REQUEST
  | REFILL_WAIT_DATA_ACK
  | REFILL_DELAY (k : Nat)
  | REFILL_DATA
deriving Repr, DecidableEq

/-- Modelled from the spec: target of `delayed_enter` for the evict
side — `k` anonymous delay cycles before `EVICT_DATA`. -/
def evictDelaySt : Nat → FsmState
  | 0 => .EVICT_DATA
  | k + 1 => .EVICT_DELAY (k + 1)

/-- Modelled from the spec: target of `delayed_enter` for the refill
side — `k` anonymous delay cycles before `REFILL_DATA`. -/
def refillDelaySt : Nat → FsmState
  | 0 => .REFILL_DATA
  | k + 1 => .REFILL_DELAY (k + 1)

/-- Per-cycle inputs to the controller: the Wishbone request fields
and the LASMI acknowledge / read-data inputs. -/
structure Inputs where
  wb_cyc : Bool
  wb_stb : Bool
  wb_we : Bool
  wb_adr : Nat
  wb_dat_w : Nat
  wb_sel : Nat
  req_ack : Bool
  dat_ack : Bool
  lasmim_dat_r : Nat
deriving Repr, DecidableEq

/-- Machine state of the controller: FSM state, tag store (tag and
dirty bit per slot), data store (one back-end line per slot), the
registered read addresses of the two memory ports, and the registered
offset `adr_offset_r`. Memory ports follow migen's write-through
read semantics: `dat_r` exposes the current array content at the
address registered on the previous edge. -/
structure CacheState where
  fsm : FsmState
  tag_mem : Nat → Nat × Bool
  data_mem : Nat → Nat
  tag_adr_r : Nat
  data_adr_r : Nat
  adr_offset_r : Nat

/-- Tag-store read data for the registered address, truncated to the
stored tag field width. -/
def storedTag (c : Config) (s : CacheState) : Nat :=
  (s.tag_mem s.tag_adr_r).1 % 2 ^ tagbits c

/-- Dirty bit of the tag-store read data for the registered address. -/
def storedDirty (s : CacheState) : Bool := (s.tag_mem s.tag_adr_r).2

/-- Data-store read data for the registered address. -/
def data_do (s : CacheState) : Nat := s.data_mem s.data_adr_r

/-- Whether the stored tag matches the tag of the current request. -/
def tagMatch (c : Config) (s : CacheState) (i : Inputs) : Bool :=
  storedTag c s == adr_tag c i.wb_adr

def isTestHit : FsmState → Bool
  | .TEST_HIT => true
  | _ => false

def isEvictRequest : FsmState → Bool
  | .EVICT_REQUEST => true
  | _ => false

def isEvictData : FsmState → Bool
  | .EVICT_DATA => true
  | _ => false

def isRefillWrtag : FsmState → Bool
  | .REFILL_WRTAG => true
  | _ => false

def isRefillRequest : FsmState → Bool
  | .REFILL_REQUEST => true
  | _ => false

def isRefillData : FsmState → Bool
  | .REFILL_DATA => true
  | _ => false

/-- States of the eviction path. -/
def isEvictState : FsmState → Bool
  | .EVICT_REQUEST => true
  | .EVICT_WAIT_DATA_ACK => true
  | .EVICT_DELAY _ => true
  | .EVICT_DATA => true
  | _ => false

/-- States of the refill path, from the tag rewrite to the data
capture. -/
def inRefillPhase : FsmState → Bool
  | .REFILL_WRTAG => true
  | .REFILL_REQUEST => true
  | .REFILL_WAIT_DATA_ACK => true
  | .REFILL_DELAY _ => true
  | .REFILL_DATA => true
  | _ => false

/-- Modelled from the spec: `Replicate` — `n` copies of the low `w`
bits of `v`, concatenated LSB-first. -/
def replicate (n w v : Nat) : Nat :=
  match n with
  | 0 => 0
  | n + 1 => v % 2 ^ w + 2 ^ w * replicate n w v

/-- Modelled from the spec: the `chooser` lane-select — the `w`-bit
word at lane `off` of `x`, where `w` is the front-end width. -/
def chooser (c : Config) (x off : Nat) : Nat :=
  x / 2 ^ (c.wb_data_width * off) % 2 ^ c.wb_data_width

/-- Modelled from the spec: the `displacer` write-enable path — the
byte-select `sel` (one bit per front-end byte) placed at byte position
`dw8 * off` of the line-wide byte write-enable vector, so that only
the byte lanes of the word at `off` selected by `sel` are enabled. -/
def displacerMask (c : Config) (sel off : Nat) : Nat :=
  sel % 2 ^ dw8 c * 2 ^ (dw8 c * off)

/-- Byte `j` (LSB-first) of the value `x`. -/
def getByte (x j : Nat) : Nat := x / 2 ^ (8 * j) % 256

/-- Modelled from the spec: per-byte masked memory write over `n`
bytes — byte `j` of the result is byte `j` of `new` where bit `j` of
`mask` is set, and byte `j` of `old` otherwise. -/
def maskedWrite (old new mask n : Nat) : Nat :=
  match n with
  | 0 => 0
  | n + 1 =>
    (if mask % 2 = 1 then new % 256 else old % 256) +
      256 * maskedWrite (old / 256) (new / 256) (mask / 2) n

/-- Combinational outputs of the controller in a given state for
given inputs, including the internal store-write signals. -/
structure Outputs where
  wb_ack : Bool
  wb_dat_r : Nat
  lasmim_stb : Bool
  lasmim_we : Bool
  lasmim_adr : Nat
  lasmim_dat_w : Nat
  lasmim_dat_we : Nat
  tag_we : Bool
  tag_di : Nat × Bool
  data_we : Nat
  data_dat_w : Nat

/-- The combinational logic of the source: Wishbone ack and read
data, LASMI request/address/write-data, and the tag-store and
data-store write signals. -/
def outputs (c : Config) (s : CacheState) (i : Inputs) : Outputs :=
  let ackb := isTestHit s.fsm && tagMatch c s i
  let dirtyw := isTestHit s.fsm && tagMatch c s i && i.wb_we
  { wb_ack := ackb
    wb_dat_r := chooser c (data_do s) s.adr_offset_r
    lasmim_stb := isEvictRequest s.fsm || isRefillRequest s.fsm
    lasmim_we := isEvictRequest s.fsm
    lasmim_adr := adr_line c i.wb_adr + 2 ^ linebits c * storedTag c s
    lasmim_dat_w := if isEvictData s.fsm then data_do s % 2 ^ c.lasmim_dw else 0
    lasmim_dat_we := if isEvictData s.fsm then 2 ^ nbytes c - 1 else 0
    tag_we := dirtyw || isRefillWrtag s.fsm
    tag_di := (adr_tag c i.wb_adr, dirtyw)
    data_we :=
      if isRefillData s.fsm then 2 ^ nbytes c - 1
      else if i.wb_cyc && i.wb_stb && i.wb_we && ackb then
        displacerMask c i.wb_sel (adr_offset c i.wb_adr)
      else 0
    data_dat_w :=
      if isRefillData s.fsm then i.lasmim_dat_r % 2 ^ c.lasmim_dw
      else replicate (ratio c) c.wb_data_width i.wb_dat_w }

/-- The registered state-transition function of the control FSM. -/
def nextFsm (c : Config) (s : CacheState) (i : Inputs) : FsmState :=
  match s.fsm with
  | .IDLE => if i.wb_cyc && i.wb_stb then .TEST_HIT else .IDLE
  | .TEST_HIT =>
    if tagMatch c s i then .IDLE
    else if storedDirty s then .EVICT_REQUEST
    else .REFILL_WRTAG
  | .EVICT_REQUEST => if i.req_ack then .EVICT_WAIT_DATA_ACK else .EVICT_REQUEST
  | .EVICT_WAIT_DATA_ACK =>
    if i.dat_ack then evictDelaySt (c.write_latency - 1) else .EVICT_WAIT_DATA_ACK
  | .EVICT_DELAY k => evictDelaySt (k - 1)
  | .EVICT_DATA => .REFILL_WRTAG
  | .REFILL_WRTAG => .REFILL_REQUEST
  | .REFILL_REQUEST => if i.req_ack then .REFILL_WAIT_DATA_ACK else .REFILL_REQUEST
  | .REFILL_WAIT_DATA_ACK =>
    if i.dat_ack then refillDelaySt (c.read_latency - 1) else .REFILL_WAIT_DATA_ACK
  | .REFILL_DELAY k => refillDelaySt (k - 1)
  | .REFILL_DATA => .TEST_HIT

/-- One synchronous clock edge: FSM transition, store writes, and
update of the registered memory-port addresses and offset. -/
def step (c : Config) (s : CacheState) (i : Inputs) : CacheState :=
  let o := outputs c s i
  let line := adr_line c i.wb_adr
  { fsm := nextFsm c s i
    tag_mem :=
      if o.tag_we then
        fun l => if l = line then o.tag_di else s.tag_mem l
      else s.tag_mem
    data_mem :=
      if o.data_we = 0 then s.data_mem
      else
        fun l =>
          if l = line then maskedWrite (s.data_mem l) o.data_dat_w o.data_we (nbytes c)
          else s.data_mem l
    tag_adr_r := line
    data_adr_r := line
    adr_offset_r := adr_offset c i.wb_adr }

/-- Execution of the controller from a state under a stream of
per-cycle inputs: `run c s ins n` is the state at the start of cycle
`n`. -/
def run (c : Config) (s : CacheState) (ins : Nat → Inputs) : Nat → CacheState
  | 0 => s
  | n + 1 => step c (run c s ins n) (ins n)

/-- Modelled from the spec: `log2_int` with its default power-of-two
requirement — succeeds with the exponent exactly on powers of two
(the helper is repository code outside `src/`; the spec's
configuration-error taxonomy requires it to reject a capacity that is
not a power of two). -/
def log2_int (n : Nat) : Except String Nat :=
  if 2 ^ flog2 n = n then .ok (flog2 n) else .error "Not a power of 2"

/-- The construction-time checks of `WB2LASMI.__init__`, in source
order: the two width checks, `log2_int` of the width ratio, `log2_int`
of the cache capacity, the non-negative line-bits requirement
(modelled from the spec: "error if negative"), and the latency
assertion. -/
def wb2lasmi_init (c : Config) : Except String Unit :=
  if c.lasmim_dw < c.wb_data_width then
    .error "LASMI data width must be >= data width"
  else if ¬c.lasmim_dw % c.wb_data_width = 0 then
    .error "LASMI data width must be a multiple of data width"
  else
    match log2_int (c.lasmim_dw / c.wb_data_width) with
    | .error e => .error e
    | .ok ob =>
      match log2_int c.cachesize with
      | .error e => .error e
      | .ok lc =>
        if lc < ob then .error "negative line bits"
        else if c.write_latency < 1 ∨ c.read_latency < 1 then
          .error "latency must be at least 1"
        else .ok ()

/-- The well-formedness conditions the claim lists: back-end width at
least the front-end width and a multiple of it, power-of-two cache
capacity, and both latencies at least 1. -/
def claimedOk (c : Config) : Prop :=
  c.wb_data_width ≤ c.lasmim_dw ∧ c.lasmim_dw % c.wb_data_width = 0 ∧
    2 ^ flog2 c.cachesize = c.cachesize ∧
    1 ≤ c.write_latency ∧ 1 ≤ c.read_latency

/-- The conditions under which construction actually succeeds: the
claimed ones plus a power-of-two width ratio and a capacity of at
least one full line. -/
def initOk (c : Config) : Prop :=
  claimedOk c ∧
    2 ^ flog2 (c.lasmim_dw / c.wb_data_width) = c.lasmim_dw / c.wb_data_width ∧
    flog2 (c.lasmim_dw / c.wb_data_width) ≤ flog2 c.cachesize

/-- Structural facts about a realizable configuration used by the
data-path theorems: byte-divisible front-end width, a back-end width
that is a multiple of it, and an offset field that exactly indexes the
words of one line. -/
def GoodConfig (c : Config) : Prop :=
  0 < c.wb_data_width ∧ 8 ∣ c.wb_data_width ∧ c.wb_data_width ∣ c.lasmim_dw ∧
    2 ^ offsetbits c = ratio c

/-- No externally observable activity: front-end ack low, no back-end
request, no back-end write data accepted, and no store write. -/
def quietOutputs (o : Outputs) : Prop :=
  o.wb_ack = false ∧ o.lasmim_stb = false ∧ o.lasmim_we = false ∧
    o.lasmim_dat_we = 0 ∧ o.tag_we = false ∧ o.data_we = 0

/-! Concrete instances used by the witness theorems. -/

/-- An 8-bit front end, 32-bit back end, 16-word cache, 8-bit back-end
address space, write latency 3, read latency 2. -/
def cfgA : Config := ⟨16, 32, 8, 8, 3, 2⟩

/-- The width ratio here is 3: none of the claimed well-formedness
conditions fails, yet `log2_int(96 / 32)` rejects it. -/
def cfgC : Config := ⟨16, 96, 8, 32, 1, 1⟩

/-- A state sitting in TEST_HIT over a tag store holding tag 0, clean,
with line 1 registered on the memory ports. -/
def sHit : CacheState :=
  { fsm := .TEST_HIT
    tag_mem := fun _ => (0, false)
    data_mem := fun _ => 0x12345678
    tag_adr_r := 1
    data_adr_r := 1
    adr_offset_r := 1 }

/-- A TEST_HIT state whose stored tag 1 mismatches a tag-0 request,
with the line clean. -/
def sMissClean : CacheState :=
  { fsm := .TEST_HIT
    tag_mem := fun _ => (1, false)
    data_mem := fun _ => 0x12345678
    tag_adr_r := 1
    data_adr_r := 1
    adr_offset_r := 1 }

/-- A TEST_HIT state whose stored tag 1 mismatches a tag-0 request,
with the line dirty. -/
def sMissDirty : CacheState :=
  { fsm := .TEST_HIT
    tag_mem := fun _ => (1, true)
    data_mem := fun _ => 0x12345678
    tag_adr_r := 1
    data_adr_r := 1
    adr_offset_r := 1 }

/-- A state waiting for the back-end write data-ack. -/
def sEvictWait : CacheState :=
  { fsm := .EVICT_WAIT_DATA_ACK
    tag_mem := fun _ => (1, true)
    data_mem := fun _ => 0x12345678
    tag_adr_r := 1
    data_adr_r := 1
    adr_offset_r := 1 }

/-- A state waiting for the back-end read data-ack. -/
def sRefillWait : CacheState :=
  { fsm := .REFILL_WAIT_DATA_ACK
    tag_mem := fun _ => (0, false)
    data_mem := fun _ => 0x12345678
    tag_adr_r := 1
    data_adr_r := 1
    adr_offset_r := 1 }

/-- Write request: address 5 (offset 1, line 1, tag 0), data 0xAB,
full byte select, back-end acks held high. -/
def iWr : Inputs := ⟨true, true, true, 5, 0xAB, 1, true, true, 0⟩

/-- Read request to the same address 5. -/
def iRd : Inputs := ⟨true, true, false, 5, 0, 1, true, true, 0⟩

/-- Idle front end with both back-end acks held high. -/
def iAck : Inputs := ⟨false, false, false, 5, 0, 0, true, true, 0⟩

/-! Arithmetic toolkit: bytes, masked writes, replication and lane
selection over `Nat`. -/

theorem log2f_congr : ∀ f₁ f₂ n, n ≤ f₁ → n ≤ f₂ → log2f f₁ n = log2f f₂ n := by
  intro f₁
  induction f₁ with
  | zero =>
    intro f₂ n h₁ _
    interval_cases n
    cases f₂ <;> simp [log2f]
  | succ f₁ ih =>
    intro f₂ n h₁ h₂
    match f₂, n with
    | 0, n =>
      interval_cases n
      simp [log2f]
    | f₂ + 1, n =>
      simp only [log2f]
      by_cases hn : n ≤ 1
      · simp [hn]
      · simp only [hn, if_false]
        have : n / 2 ≤ f₁ := by omega
        have : n / 2 ≤ f₂ := by omega
        rw [ih f₂ (n / 2) (by omega) (by omega)]

theorem flog2_two_pow (k : Nat) : flog2 (2 ^ k) = k := by
  induction k with
  | zero => simp [flog2, log2f]
  | succ k ih =>
    unfold flog2
    have h2 : 2 ^ (k + 1) = 2 ^ k * 2 := by rw [pow_succ]
    have hge : 2 ≤ 2 ^ (k + 1) := by
      calc 2 = 2 ^ 1 := rfl
        _ ≤ 2 ^ (k + 1) := Nat.pow_le_pow_right (by omega) (by omega)
    have hpos : 0 < 2 ^ k := Nat.pos_pow_of_pos k (by omega)
    obtain ⟨m, hm⟩ : ∃ m, 2 ^ (k + 1) = m + 1 := ⟨2 ^ (k + 1) - 1, by omega⟩
    rw [hm]
    simp only [log2f]
    have hnle : ¬m + 1 ≤ 1 := by omega
    simp only [hnle, if_false]
    have hdiv : (m + 1) / 2 = 2 ^ k := by
      rw [← hm, h2, Nat.mul_div_cancel _ (by omega)]
    rw [hdiv]
    rw [log2f_congr m (2 ^ k) (2 ^ k) (by omega) (le_refl _)]
    rw [← flog2]
    rw [ih]

theorem getByte_lt (x j : Nat) : getByte x j < 256 := by
  unfold getByte
  exact Nat.mod_lt _ (by omega)

theorem getByte_div256 (x j : Nat) : getByte (x / 256) j = getByte x (j + 1) := by
  unfold getByte
  rw [Nat.div_div_eq_div_mul]
  congr 2
  rw [show 8 * (j + 1) = 8 + 8 * j by ring, pow_add]
  norm_num

theorem getByte_zero_eq (x : Nat) : getByte x 0 = x % 256 := by
  unfold getByte
  norm_num

theorem eq_of_getByte_eq :
    ∀ n x y, x < 2 ^ (8 * n) → y < 2 ^ (8 * n) →
      (∀ j, j < n → getByte x j = getByte y j) → x = y := by
  intro n
  induction n with
  | zero =>
    intro x y hx hy _
    simp only [Nat.mul_zero, pow_zero, Nat.lt_one_iff] at hx hy
    omega
  | succ n ih =>
    intro x y hx hy hb
    have h0 : x % 256 = y % 256 := by
      have := hb 0 (by omega)
      rwa [getByte_zero_eq, getByte_zero_eq] at this
    have hpow : 2 ^ (8 * (n + 1)) = 2 ^ (8 * n) * 256 := by
      rw [show 8 * (n + 1) = 8 * n + 8 by ring, pow_add]
      norm_num
    have hdiv : x / 256 = y / 256 := by
      apply ih
      · rw [Nat.div_lt_iff_lt_mul (by omega : (0:Nat) < 256)]
        rw [hpow] at hx
        exact hx
      · rw [Nat.div_lt_iff_lt_mul (by omega : (0:Nat) < 256)]
        rw [hpow] at hy
        exact hy
      · intro j hj
        rw [getByte_div256, getByte_div256]
        exact hb (j + 1) (by omega)
    omega

theorem getByte_maskedWrite :
    ∀ n old new mask j, j < n →
      getByte (maskedWrite old new mask n) j =
        if mask / 2 ^ j % 2 = 1 then getByte new j else getByte old j := by
  intro n
  induction n with
  | zero => intro _ _ _ j hj; omega
  | succ n ih =>
    intro old new mask j hj
    unfold maskedWrite
    match j with
    | 0 =>
      rw [getByte_zero_eq]
      rw [Nat.add_mul_mod_self_left]
      have hb : (if mask % 2 = 1 then new % 256 else old % 256) < 256 := by
        split <;> exact Nat.mod_lt _ (by omega)
      rw [Nat.mod_eq_of_lt hb]
      simp only [pow_zero, Nat.div_one, getByte_zero_eq]
    | j + 1 =>
      have hsplit :
          getByte ((if mask % 2 = 1 then new % 256 else old % 256) +
            256 * maskedWrite (old / 256) (new / 256) (mask / 2) n) (j + 1) =
          getByte (maskedWrite (old / 256) (new / 256) (mask / 2) n) j := by
        rw [← getByte_div256]
        congr 1
        rw [Nat.add_mul_div_left _ _ (by omega : (0:Nat) < 256)]
        have hb : (if mask % 2 = 1 then new % 256 else old % 256) < 256 := by
          split <;> exact Nat.mod_lt _ (by omega)
        rw [Nat.div_eq_of_lt hb]
        omega
      rw [hsplit, ih _ _ _ j (by omega)]
      have hmask : mask / 2 / 2 ^ j = mask / 2 ^ (j + 1) := by
        rw [Nat.div_div_eq_div_mul, pow_succ, Nat.mul_comm (2 ^ j) 2]
      rw [hmask, getByte_div256, getByte_div256]

theorem maskedWrite_lt :
    ∀ n old new mask, maskedWrite old new mask n < 2 ^ (8 * n) := by
  intro n
  induction n with
  | zero => intro _ _ _; simp [maskedWrite]
  | succ n ih =>
    intro old new mask
    unfold maskedWrite
    have hb : (if mask % 2 = 1 then new % 256 else old % 256) < 256 := by
      split <;> exact Nat.mod_lt _ (by omega)
    have hr := ih (old / 256) (new / 256) (mask / 2)
    have hpow : 2 ^ (8 * (n + 1)) = 256 * 2 ^ (8 * n) := by
      rw [show 8 * (n + 1) = 8 + 8 * n by ring, pow_add]
      norm_num
    rw [hpow]
    omega

theorem getByte_add_mul_high (a b d j : Nat) (ha : a < 2 ^ (8 * d)) :
    getByte (a + 2 ^ (8 * d) * b) (d + j) = getByte b j := by
  unfold getByte
  rw [show 8 * (d + j) = 8 * d + 8 * j by ring, pow_add,
    ← Nat.div_div_eq_div_mul, Nat.add_mul_div_left _ _ (Nat.pos_pow_of_pos _ (by omega)),
    Nat.div_eq_of_lt ha, Nat.zero_add]

theorem getByte_add_mul_low (a b d j : Nat) (hj : j < d) :
    getByte (a + 2 ^ (8 * d) * b) j = getByte a j := by
  unfold getByte
  have hd : 8 * d = 8 * j + (8 + 8 * (d - j - 1)) := by omega
  rw [hd, pow_add, Nat.mul_assoc,
    Nat.add_mul_div_left _ _ (Nat.pos_pow_of_pos (8 * j) (by omega))]
  rw [pow_add]
  rw [show (2:Nat) ^ 8 = 256 by norm_num]
  rw [show 256 * 2 ^ (8 * (d - j - 1)) * b = 256 * (2 ^ (8 * (d - j - 1)) * b) by ring]
  rw [Nat.add_mul_mod_self_left]

theorem getByte_mod_pow (x d j : Nat) (hj : j < d) :
    getByte (x % 2 ^ (8 * d)) j = getByte x j := by
  conv_rhs => rw [← Nat.mod_add_div x (2 ^ (8 * d))]
  rw [getByte_add_mul_low _ _ _ _ hj]

theorem getByte_div_pow (x d j : Nat) :
    getByte (x / 2 ^ (8 * d)) j = getByte x (d + j) := by
  unfold getByte
  rw [Nat.div_div_eq_div_mul, ← pow_add]
  congr 2
  ring

theorem getByte_replicate (d8 v : Nat) :
    ∀ n j, j < n * d8 →
      getByte (replicate n (8 * d8) v) j = getByte (v % 2 ^ (8 * d8)) (j % d8) := by
  intro n
  induction n with
  | zero => intro j hj; omega
  | succ n ih =>
    intro j hj
    unfold replicate
    have hmod : v % 2 ^ (8 * d8) < 2 ^ (8 * d8) :=
      Nat.mod_lt _ (Nat.pos_pow_of_pos _ (by omega))
    by_cases hcase : j < d8
    · rw [getByte_add_mul_low _ _ _ _ hcase, Nat.mod_eq_of_lt hcase]
    · have hsm : (n + 1) * d8 = n * d8 + d8 := by ring
      have hd8 : 0 < d8 := by
        rcases Nat.eq_zero_or_pos d8 with h | h
        · subst h
          rw [Nat.mul_zero] at hj
          omega
        · exact h
      obtain ⟨j', hj'⟩ : ∃ j', j = d8 + j' := ⟨j - d8, by omega⟩
      subst hj'
      rw [getByte_add_mul_high _ _ _ _ hmod]
      rw [ih j' (by omega)]
      congr 1
      rw [Nat.add_mod_left]

theorem mul_two_pow_div_low (x s j : Nat) (hj : j < s) :
    x * 2 ^ s / 2 ^ j % 2 = 0 := by
  have hs : s = j + (1 + (s - j - 1)) := by omega
  rw [hs, pow_add]
  rw [show x * (2 ^ j * 2 ^ (1 + (s - j - 1))) = x * 2 ^ (1 + (s - j - 1)) * 2 ^ j by ring]
  rw [Nat.mul_div_cancel _ (Nat.pos_pow_of_pos j (by omega))]
  rw [pow_add, pow_one]
  rw [show x * (2 * 2 ^ (s - j - 1)) = 2 * (x * 2 ^ (s - j - 1)) by ring]
  simp [Nat.mul_mod_right]

theorem mul_two_pow_div_high (x s j : Nat) (hj : s ≤ j) :
    x * 2 ^ s / 2 ^ j = x / 2 ^ (j - s) := by
  have hs : (2:Nat) ^ j = 2 ^ s * 2 ^ (j - s) := by
    rw [← pow_add]
    congr 1
    omega
  rw [hs, ← Nat.div_div_eq_div_mul, Nat.mul_div_cancel _ (Nat.pos_pow_of_pos s (by omega))]

theorem div_two_pow_bit_zero_of_lt (x j : Nat) (h : x < 2 ^ j) :
    x / 2 ^ j % 2 = 0 := by
  rw [Nat.div_eq_of_lt h]

theorem two_pow_sub_one_div :
    ∀ b a, b ≤ a → (2 ^ a - 1) / 2 ^ b = 2 ^ (a - b) - 1 := by
  intro b
  induction b with
  | zero => intro a _; simp
  | succ b ih =>
    intro a ha
    have h1 : (2:Nat) ^ a - 1 = 2 * (2 ^ (a - 1) - 1) + 1 := by
      have : (2:Nat) ^ a = 2 * 2 ^ (a - 1) := by
        rw [← pow_succ']
        congr 1
        omega
      have hpos : 0 < (2:Nat) ^ (a - 1) := Nat.pos_pow_of_pos _ (by omega)
      omega
    rw [pow_succ', ← Nat.div_div_eq_div_mul, h1]
    rw [Nat.mul_add_div (by omega : (0:Nat) < 2)]
    norm_num
    rw [ih (a - 1) (by omega)]
    have harith : a - 1 - b = a - (b + 1) := by omega
    rw [harith]

theorem two_pow_sub_one_mod_two (m : Nat) (hm : 0 < m) : (2 ^ m - 1) % 2 = 1 := by
  have : (2:Nat) ^ m = 2 * 2 ^ (m - 1) := by
    rw [← pow_succ']
    congr 1
    omega
  have hpos : 0 < (2:Nat) ^ (m - 1) := Nat.pos_pow_of_pos _ (by omega)
  omega

theorem chooser_lt (c : Config) (x off : Nat) :
    chooser c x off < 2 ^ c.wb_data_width := by
  unfold chooser
  exact Nat.mod_lt _ (Nat.pos_pow_of_pos _ (by omega))

theorem chooser_getByte (c : Config) (hW : c.wb_data_width = 8 * dw8 c)
    (x off j : Nat) (hj : j < dw8 c) :
    getByte (chooser c x off) j = getByte x (dw8 c * off + j) := by
  unfold chooser
  rw [hW, show 8 * dw8 c * off = 8 * (dw8 c * off) by ring]
  rw [getByte_mod_pow _ _ _ hj, getByte_div_pow]

theorem fullSelMask_bit (d8 off j : Nat) (hj : j < d8) :
    (2 ^ d8 - 1) * 2 ^ (d8 * off) / 2 ^ (d8 * off + j) % 2 = 1 := by
  rw [show d8 * off + j = (d8 * off) + j by rfl, pow_add, ← Nat.div_div_eq_div_mul]
  rw [Nat.mul_div_cancel _ (Nat.pos_pow_of_pos _ (by omega))]
  rw [two_pow_sub_one_div j d8 (by omega)]
  exact two_pow_sub_one_mod_two _ (by omega)

theorem displacerMask_lane (c : Config) (sel off j : Nat) (hd8 : 0 < dw8 c)
    (hbit : displacerMask c sel off / 2 ^ j % 2 = 1) :
    j / dw8 c = off := by
  unfold displacerMask at hbit
  set d8 := dw8 c with hd8def
  by_cases hlow : j < d8 * off
  · rw [mul_two_pow_div_low _ _ _ hlow] at hbit
    omega
  · by_cases hhigh : d8 * off + d8 ≤ j
    · have hlt : sel % 2 ^ d8 * 2 ^ (d8 * off) < 2 ^ j := by
        have h1 : sel % 2 ^ d8 < 2 ^ d8 := Nat.mod_lt _ (Nat.pos_pow_of_pos _ (by omega))
        calc sel % 2 ^ d8 * 2 ^ (d8 * off) < 2 ^ d8 * 2 ^ (d8 * off) :=
              mul_lt_mul_of_pos_right h1 (Nat.pos_pow_of_pos _ (by omega))
          _ = 2 ^ (d8 * off + d8) := by rw [← pow_add, Nat.add_comm]
          _ ≤ 2 ^ j := Nat.pow_le_pow_right (by omega) hhigh
      rw [div_two_pow_bit_zero_of_lt _ _ hlt] at hbit
      omega
    · obtain ⟨r, hr⟩ : ∃ r, j = d8 * off + r := ⟨j - d8 * off, by omega⟩
      subst hr
      rw [Nat.mul_add_div hd8, Nat.div_eq_of_lt (by omega), Nat.add_zero]

theorem displacerMask_bit_sel (c : Config) (sel off j : Nat)
    (hlo : dw8 c * off ≤ j) :
    displacerMask c sel off / 2 ^ j % 2 = sel % 2 ^ dw8 c / 2 ^ (j - dw8 c * off) % 2 := by
  unfold displacerMask
  rw [mul_two_pow_div_high _ _ _ hlo]

/-! Structural lemmas about the machine: projections of `step`,
store-write preservation, the delay chains, and the refill phase. -/

theorem isTestHit_iff (f : FsmState) : isTestHit f = true ↔ f = .TEST_HIT := by
  cases f <;> simp [isTestHit]

theorem step_fsm (c : Config) (s : CacheState) (i : Inputs) :
    (step c s i).fsm = nextFsm c s i := rfl

theorem step_tag_adr_r (c : Config) (s : CacheState) (i : Inputs) :
    (step c s i).tag_adr_r = adr_line c i.wb_adr := rfl

theorem step_data_adr_r (c : Config) (s : CacheState) (i : Inputs) :
    (step c s i).data_adr_r = adr_line c i.wb_adr := rfl

theorem step_adr_offset_r (c : Config) (s : CacheState) (i : Inputs) :
    (step c s i).adr_offset_r = adr_offset c i.wb_adr := rfl

theorem step_tag_mem_of (c : Config) (s : CacheState) (i : Inputs)
    (h : (outputs c s i).tag_we = false) : (step c s i).tag_mem = s.tag_mem := by
  unfold step
  simp [h]

theorem step_data_mem_of (c : Config) (s : CacheState) (i : Inputs)
    (h : (outputs c s i).data_we = 0) : (step c s i).data_mem = s.data_mem := by
  unfold step
  simp [h]

theorem no_store_write (c : Config) (s : CacheState) (i : Inputs)
    (h1 : isTestHit s.fsm = false) (h2 : isRefillWrtag s.fsm = false)
    (h3 : isRefillData s.fsm = false) :
    (outputs c s i).tag_we = false ∧ (outputs c s i).data_we = 0 := by
  unfold outputs
  simp [h1, h2, h3]

theorem step_preserves_mems (c : Config) (s : CacheState) (i : Inputs)
    (h1 : isTestHit s.fsm = false) (h2 : isRefillWrtag s.fsm = false)
    (h3 : isRefillData s.fsm = false) :
    (step c s i).tag_mem = s.tag_mem ∧ (step c s i).data_mem = s.data_mem := by
  obtain ⟨ht, hd⟩ := no_store_write c s i h1 h2 h3
  exact ⟨step_tag_mem_of c s i ht, step_data_mem_of c s i hd⟩

theorem quiet_of_evict_delay (c : Config) (s : CacheState) (i : Inputs)
    (k : Nat) (h : s.fsm = .EVICT_DELAY (k + 1)) :
    quietOutputs (outputs c s i) := by
  unfold quietOutputs outputs
  simp [h, isTestHit, isEvictRequest, isRefillRequest, isEvictData, isRefillWrtag,
    isRefillData]

theorem quiet_of_refill_delay (c : Config) (s : CacheState) (i : Inputs)
    (k : Nat) (h : s.fsm = .REFILL_DELAY (k + 1)) :
    quietOutputs (outputs c s i) := by
  unfold quietOutputs outputs
  simp [h, isTestHit, isEvictRequest, isRefillRequest, isEvictData, isRefillWrtag,
    isRefillData]

theorem step_evict_delay (c : Config) (s : CacheState) (i : Inputs)
    (k : Nat) (h : s.fsm = .EVICT_DELAY (k + 1)) :
    (step c s i).fsm = evictDelaySt k ∧
      (step c s i).tag_mem = s.tag_mem ∧ (step c s i).data_mem = s.data_mem := by
  refine ⟨?_, step_preserves_mems c s i (by rw [h]; rfl) (by rw [h]; rfl) (by rw [h]; rfl)⟩
  rw [step_fsm]
  unfold nextFsm
  rw [h]
  rfl

theorem step_refill_delay (c : Config) (s : CacheState) (i : Inputs)
    (k : Nat) (h : s.fsm = .REFILL_DELAY (k + 1)) :
    (step c s i).fsm = refillDelaySt k ∧
      (step c s i).tag_mem = s.tag_mem ∧ (step c s i).data_mem = s.data_mem := by
  refine ⟨?_, step_preserves_mems c s i (by rw [h]; rfl) (by rw [h]; rfl) (by rw [h]; rfl)⟩
  rw [step_fsm]
  unfold nextFsm
  rw [h]
  rfl


theorem evict_delay_chain (c : Config) (s : CacheState) (ins : Nat → Inputs)
    (d : Nat) (h : s.fsm = evictDelaySt d) :
    ∀ j, j ≤ d →
      (run c s ins j).fsm = evictDelaySt (d - j) ∧
        (run c s ins j).tag_mem = s.tag_mem ∧
        (run c s ins j).data_mem = s.data_mem := by
  intro j
  induction j with
  | zero => intro _; exact ⟨by simpa [run] using h, rfl, rfl⟩
  | succ j ih =>
    intro hj
    obtain ⟨hf, ht, hd⟩ := ih (by omega)
    have hrw : d - j = (d - (j + 1)) + 1 := by omega
    rw [hrw] at hf
    have hstep := step_evict_delay c (run c s ins j) (ins j) (d - (j + 1)) hf
    exact ⟨hstep.1, by rw [show run c s ins (j + 1) = step c (run c s ins j) (ins j) from rfl,
        hstep.2.1, ht],
      by rw [show run c s ins (j + 1) = step c (run c s ins j) (ins j) from rfl,
        hstep.2.2, hd]⟩

theorem refill_delay_chain (c : Config) (s : CacheState) (ins : Nat → Inputs)
    (d : Nat) (h : s.fsm = refillDelaySt d) :
    ∀ j, j ≤ d →
      (run c s ins j).fsm = refillDelaySt (d - j) ∧
        (run c s ins j).tag_mem = s.tag_mem ∧
        (run c s ins j).data_mem = s.data_mem := by
  intro j
  induction j with
  | zero => intro _; exact ⟨by simpa [run] using h, rfl, rfl⟩
  | succ j ih =>
    intro hj
    obtain ⟨hf, ht, hd⟩ := ih (by omega)
    have hrw : d - j = (d - (j + 1)) + 1 := by omega
    rw [hrw] at hf
    have hstep := step_refill_delay c (run c s ins j) (ins j) (d - (j + 1)) hf
    exact ⟨hstep.1, by rw [show run c s ins (j + 1) = step c (run c s ins j) (ins j) from rfl,
        hstep.2.1, ht],
      by rw [show run c s ins (j + 1) = step c (run c s ins j) (ins j) from rfl,
        hstep.2.2, hd]⟩

theorem run_add (c : Config) (s : CacheState) (ins : Nat → Inputs) (m : Nat) :
    ∀ n, run c s ins (m + n) = run c (run c s ins m) (fun k => ins (m + k)) n := by
  intro n
  induction n with
  | zero => rfl
  | succ n ih =>
    show step c (run c s ins (m + n)) (ins (m + n)) = _
    rw [ih]
    rfl

theorem refillDelaySt_phase (n : Nat) : inRefillPhase (refillDelaySt n) = true := by
  cases n <;> rfl

theorem refill_phase_not_evict (f : FsmState) (h : inRefillPhase f = true) :
    isEvictState f = false := by
  cases f <;> simp_all [inRefillPhase, isEvictState]

theorem nextFsm_idle (c : Config) (s : CacheState) (i : Inputs) (h : s.fsm = .IDLE) :
    nextFsm c s i = if i.wb_cyc && i.wb_stb then .TEST_HIT else .IDLE := by
  unfold nextFsm
  rw [h]

theorem nextFsm_test_hit (c : Config) (s : CacheState) (i : Inputs)
    (h : s.fsm = .TEST_HIT) :
    nextFsm c s i =
      if tagMatch c s i then .IDLE
      else if storedDirty s then .EVICT_REQUEST else .REFILL_WRTAG := by
  unfold nextFsm
  rw [h]

theorem nextFsm_evict_request (c : Config) (s : CacheState) (i : Inputs)
    (h : s.fsm = .EVICT_REQUEST) :
    nextFsm c s i = if i.req_ack then .EVICT_WAIT_DATA_ACK else .EVICT_REQUEST := by
  unfold nextFsm
  rw [h]

theorem nextFsm_evict_wait (c : Config) (s : CacheState) (i : Inputs)
    (h : s.fsm = .EVICT_WAIT_DATA_ACK) :
    nextFsm c s i =
      if i.dat_ack then evictDelaySt (c.write_latency - 1) else .EVICT_WAIT_DATA_ACK := by
  unfold nextFsm
  rw [h]

theorem nextFsm_evict_data (c : Config) (s : CacheState) (i : Inputs)
    (h : s.fsm = .EVICT_DATA) : nextFsm c s i = .REFILL_WRTAG := by
  unfold nextFsm
  rw [h]

theorem nextFsm_refill_wrtag (c : Config) (s : CacheState) (i : Inputs)
    (h : s.fsm = .REFILL_WRTAG) : nextFsm c s i = .REFILL_REQUEST := by
  unfold nextFsm
  rw [h]

theorem nextFsm_refill_request (c : Config) (s : CacheState) (i : Inputs)
    (h : s.fsm = .REFILL_REQUEST) :
    nextFsm c s i = if i.req_ack then .REFILL_WAIT_DATA_ACK else .REFILL_REQUEST := by
  unfold nextFsm
  rw [h]

theorem nextFsm_refill_wait (c : Config) (s : CacheState) (i : Inputs)
    (h : s.fsm = .REFILL_WAIT_DATA_ACK) :
    nextFsm c s i =
      if i.dat_ack then refillDelaySt (c.read_latency - 1) else .REFILL_WAIT_DATA_ACK := by
  unfold nextFsm
  rw [h]

theorem nextFsm_refill_delay (c : Config) (s : CacheState) (i : Inputs) (k : Nat)
    (h : s.fsm = .REFILL_DELAY k) : nextFsm c s i = refillDelaySt (k - 1) := by
  unfold nextFsm
  rw [h]

theorem nextFsm_refill_data (c : Config) (s : CacheState) (i : Inputs)
    (h : s.fsm = .REFILL_DATA) : nextFsm c s i = .TEST_HIT := by
  unfold nextFsm
  rw [h]

theorem refill_phase_step (c : Config) (s : CacheState) (i : Inputs)
    (h : inRefillPhase s.fsm = true) :
    inRefillPhase (step c s i).fsm = true ∨ (step c s i).fsm = .TEST_HIT := by
  rw [step_fsm]
  cases hf : s.fsm <;> rw [hf] at h
  case IDLE => exact absurd h (by simp [inRefillPhase])
  case TEST_HIT => exact absurd h (by simp [inRefillPhase])
  case EVICT_REQUEST => exact absurd h (by simp [inRefillPhase])
  case EVICT_WAIT_DATA_ACK => exact absurd h (by simp [inRefillPhase])
  case EVICT_DELAY k => exact absurd h (by simp [inRefillPhase])
  case EVICT_DATA => exact absurd h (by simp [inRefillPhase])
  case REFILL_WRTAG => rw [nextFsm_refill_wrtag c s i hf]; exact Or.inl rfl
  case REFILL_REQUEST =>
    rw [nextFsm_refill_request c s i hf]
    by_cases hr : i.req_ack = true
    · rw [if_pos hr]
      exact Or.inl rfl
    · rw [if_neg hr]
      exact Or.inl rfl
  case REFILL_WAIT_DATA_ACK =>
    rw [nextFsm_refill_wait c s i hf]
    by_cases hr : i.dat_ack = true
    · rw [if_pos hr]
      exact Or.inl (refillDelaySt_phase _)
    · rw [if_neg hr]
      exact Or.inl rfl
  case REFILL_DELAY k =>
    rw [nextFsm_refill_delay c s i k hf]
    exact Or.inl (refillDelaySt_phase _)
  case REFILL_DATA =>
    rw [nextFsm_refill_data c s i hf]
    exact Or.inr rfl

theorem refill_phase_run (c : Config) (s : CacheState) (ins : Nat → Inputs)
    (h0 : inRefillPhase s.fsm = true) :
    ∀ n, (∀ m, m < n → (run c s ins m).fsm ≠ .TEST_HIT) →
      inRefillPhase (run c s ins n).fsm = true ∨ (run c s ins n).fsm = .TEST_HIT := by
  intro n
  induction n with
  | zero => intro _; exact Or.inl h0
  | succ n ih =>
    intro hm
    rcases ih (fun m hm' => hm m (by omega)) with h | h
    · exact refill_phase_step c (run c s ins n) (ins n) h
    · exact absurd h (hm n (by omega))

theorem outputs_wb_ack (c : Config) (s : CacheState) (i : Inputs) :
    (outputs c s i).wb_ack = (isTestHit s.fsm && tagMatch c s i) := rfl

theorem outputs_wb_dat_r (c : Config) (s : CacheState) (i : Inputs) :
    (outputs c s i).wb_dat_r = chooser c (data_do s) s.adr_offset_r := rfl

theorem outputs_lasmim_stb (c : Config) (s : CacheState) (i : Inputs) :
    (outputs c s i).lasmim_stb = (isEvictRequest s.fsm || isRefillRequest s.fsm) := rfl

theorem outputs_lasmim_we (c : Config) (s : CacheState) (i : Inputs) :
    (outputs c s i).lasmim_we = isEvictRequest s.fsm := rfl

theorem outputs_lasmim_adr (c : Config) (s : CacheState) (i : Inputs) :
    (outputs c s i).lasmim_adr = adr_line c i.wb_adr + 2 ^ linebits c * storedTag c s := rfl

theorem outputs_lasmim_dat_w (c : Config) (s : CacheState) (i : Inputs) :
    (outputs c s i).lasmim_dat_w =
      if isEvictData s.fsm then data_do s % 2 ^ c.lasmim_dw else 0 := rfl

theorem outputs_lasmim_dat_we (c : Config) (s : CacheState) (i : Inputs) :
    (outputs c s i).lasmim_dat_we =
      if isEvictData s.fsm then 2 ^ nbytes c - 1 else 0 := rfl

theorem outputs_tag_we (c : Config) (s : CacheState) (i : Inputs) :
    (outputs c s i).tag_we =
      ((isTestHit s.fsm && tagMatch c s i && i.wb_we) || isRefillWrtag s.fsm) := rfl

theorem outputs_tag_di (c : Config) (s : CacheState) (i : Inputs) :
    (outputs c s i).tag_di =
      (adr_tag c i.wb_adr, isTestHit s.fsm && tagMatch c s i && i.wb_we) := rfl

theorem outputs_data_we (c : Config) (s : CacheState) (i : Inputs) :
    (outputs c s i).data_we =
      if isRefillData s.fsm then 2 ^ nbytes c - 1
      else if i.wb_cyc && i.wb_stb && i.wb_we && (isTestHit s.fsm && tagMatch c s i) then
        displacerMask c i.wb_sel (adr_offset c i.wb_adr)
      else 0 := rfl

theorem outputs_data_dat_w (c : Config) (s : CacheState) (i : Inputs) :
    (outputs c s i).data_dat_w =
      if isRefillData s.fsm then i.lasmim_dat_r % 2 ^ c.lasmim_dw
      else replicate (ratio c) c.wb_data_width i.wb_dat_w := rfl

theorem step_tag_mem_of_we (c : Config) (s : CacheState) (i : Inputs)
    (h : (outputs c s i).tag_we = true) :
    (step c s i).tag_mem =
      fun l => if l = adr_line c i.wb_adr then (outputs c s i).tag_di else s.tag_mem l := by
  unfold step
  simp [h]

theorem step_data_mem_of_we (c : Config) (s : CacheState) (i : Inputs)
    (h : ¬(outputs c s i).data_we = 0) :
    (step c s i).data_mem =
      fun l =>
        if l = adr_line c i.wb_adr then
          maskedWrite (s.data_mem l) (outputs c s i).data_dat_w
            (outputs c s i).data_we (nbytes c)
        else s.data_mem l := by
  unfold step
  simp [h]

theorem goodConfig_width (c : Config) (hg : GoodConfig c) :
    c.wb_data_width = 8 * dw8 c := by
  obtain ⟨_, ⟨k, hk⟩, _, _⟩ := hg
  unfold dw8
  omega

theorem goodConfig_dw8_pos (c : Config) (hg : GoodConfig c) : 0 < dw8 c := by
  have hw := goodConfig_width c hg
  obtain ⟨hpos, _, _, _⟩ := hg
  omega

theorem goodConfig_nbytes (c : Config) (hg : GoodConfig c) :
    nbytes c = ratio c * dw8 c := by
  have hw := goodConfig_width c hg
  obtain ⟨hpos, _, ⟨r, hr⟩, _⟩ := hg
  unfold nbytes ratio
  rw [hr, Nat.mul_div_cancel_left _ (by omega), hw]
  rw [show 8 * dw8 c * r = dw8 c * r * 8 by ring]
  rw [Nat.mul_div_cancel _ (by omega)]
  ring

theorem adr_offset_lt_ratio (c : Config) (hg : GoodConfig c) (a : Nat) :
    adr_offset c a < ratio c := by
  obtain ⟨_, _, _, hob⟩ := hg
  unfold adr_offset
  rw [← hob]
  exact Nat.mod_lt _ (Nat.pos_pow_of_pos _ (by omega))

theorem adr_tag_mod (c : Config) (a : Nat) :
    adr_tag c a % 2 ^ tagbits c = adr_tag c a := by
  unfold adr_tag
  exact Nat.mod_mod_of_dvd _ dvd_rfl

theorem step_tag_mem_written (c : Config) (s : CacheState) (i : Inputs)
    (h : (outputs c s i).tag_we = true) :
    (step c s i).tag_mem (adr_line c i.wb_adr) = (outputs c s i).tag_di := by
  rw [step_tag_mem_of_we c s i h]
  simp

theorem step_data_mem_written (c : Config) (s : CacheState) (i : Inputs)
    (h : ¬(outputs c s i).data_we = 0) :
    (step c s i).data_mem (adr_line c i.wb_adr) =
      maskedWrite (s.data_mem (adr_line c i.wb_adr)) (outputs c s i).data_dat_w
        (outputs c s i).data_we (nbytes c) := by
  rw [step_data_mem_of_we c s i h]
  simp

theorem step_data_mem_other (c : Config) (s : CacheState) (i : Inputs) (l : Nat)
    (h : l ≠ adr_line c i.wb_adr) : (step c s i).data_mem l = s.data_mem l := by
  unfold step
  by_cases h0 : (outputs c s i).data_we = 0 <;> simp [h0, h]

theorem step_preserves_mems_miss (c : Config) (s : CacheState) (i : Inputs)
    (hmatch : tagMatch c s i = false)
    (h2 : isRefillWrtag s.fsm = false) (h3 : isRefillData s.fsm = false) :
    (step c s i).tag_mem = s.tag_mem ∧ (step c s i).data_mem = s.data_mem := by
  have ht : (outputs c s i).tag_we = false := by
    rw [outputs_tag_we, hmatch, h2]
    simp
  have hd : (outputs c s i).data_we = 0 := by
    rw [outputs_data_we, h3, hmatch]
    simp
  exact ⟨step_tag_mem_of c s i ht, step_data_mem_of c s i hd⟩

theorem run_const_regs (c : Config) (s : CacheState) (i : Inputs) (n : Nat)
    (hn : 0 < n) :
    (run c s (fun _ => i) n).tag_adr_r = adr_line c i.wb_adr ∧
      (run c s (fun _ => i) n).data_adr_r = adr_line c i.wb_adr ∧
      (run c s (fun _ => i) n).adr_offset_r = adr_offset c i.wb_adr := by
  obtain ⟨m, rfl⟩ : ∃ m, n = m + 1 := ⟨n - 1, by omega⟩
  exact ⟨rfl, rfl, rfl⟩

theorem chooser_maskedWrite_full (c : Config) (hW : c.wb_data_width = 8 * dw8 c)
    (hd8 : 0 < dw8 c) (hnb : nbytes c = ratio c * dw8 c)
    (old v off : Nat) (hoff : off < ratio c) (hv : v < 2 ^ c.wb_data_width) :
    chooser c
      (maskedWrite old (replicate (ratio c) c.wb_data_width v)
        ((2 ^ dw8 c - 1) * 2 ^ (dw8 c * off)) (nbytes c)) off = v := by
  have hv' : v < 2 ^ (8 * dw8 c) := by
    rw [← hW]
    exact hv
  apply eq_of_getByte_eq (dw8 c)
  · rw [← hW]
    exact chooser_lt c _ off
  · exact hv'
  · intro j hj
    rw [chooser_getByte c hW _ _ _ hj]
    have hidx : dw8 c * off + j < nbytes c := by
      rw [hnb]
      calc dw8 c * off + j < dw8 c * off + dw8 c := by omega
        _ = dw8 c * (off + 1) := by ring
        _ ≤ dw8 c * ratio c := Nat.mul_le_mul_left _ (by omega)
        _ = ratio c * dw8 c := Nat.mul_comm _ _
    rw [getByte_maskedWrite _ _ _ _ _ hidx]
    rw [if_pos (fullSelMask_bit (dw8 c) off j hj)]
    rw [hW]
    rw [getByte_replicate (dw8 c) v (ratio c) _ (by rw [hnb] at hidx; omega)]
    rw [Nat.mul_add_mod]
    rw [Nat.mod_eq_of_lt hj, Nat.mod_eq_of_lt hv']

/-! Settled claims. -/

/-- Claim C10: the front-end ack is asserted in a cycle if and only
if the FSM is in TEST_HIT and the tag-store output tag equals the tag
field of the request address; in every other state, and on a tag
mismatch in TEST_HIT, ack is 0. -/
theorem ack_iff_tagmatch_testhit (c : Config) (s : CacheState) (i : Inputs) :
    (outputs c s i).wb_ack = true ↔
      s.fsm = .TEST_HIT ∧ storedTag c s = adr_tag c i.wb_adr := by
  rw [outputs_wb_ack]
  rw [Bool.and_eq_true]
  rw [isTestHit_iff]
  unfold tagMatch
  rw [beq_iff_eq]

/-- Claim C9: hit detection is solely the tag-equality comparison —
there is no valid bit distinct from dirty in the per-slot record — so
in TEST_HIT over a cold (arbitrary, never-refilled) store whose
stored tag happens to equal the request tag, the controller asserts
ack, returns whatever the data store holds at the slot, and completes
the transaction back to IDLE. -/
theorem cold_tag_collision_hit (c : Config) (s : CacheState) (i : Inputs)
    (hf : s.fsm = .TEST_HIT) (hta : s.tag_adr_r = adr_line c i.wb_adr)
    (ht : (s.tag_mem (adr_line c i.wb_adr)).1 % 2 ^ tagbits c = adr_tag c i.wb_adr) :
    (outputs c s i).wb_ack = true ∧
      (outputs c s i).wb_dat_r = chooser c (s.data_mem s.data_adr_r) s.adr_offset_r ∧
      (step c s i).fsm = .IDLE := by
  have hst : storedTag c s = adr_tag c i.wb_adr := by
    unfold storedTag
    rw [hta]
    exact ht
  have hmatch : tagMatch c s i = true := by
    unfold tagMatch
    rw [hst]
    exact beq_self_eq_true _
  refine ⟨?_, rfl, ?_⟩
  · rw [outputs_wb_ack, hf, hmatch]
    rfl
  · rw [step_fsm, nextFsm_test_hit c s i hf, if_pos hmatch]

/-- Claim C8: the read data returned to the front end is the lane
selected out of the full line read from the data array at the
registered (previous-cycle) line address, using the registered
(previous-cycle) offset; the offset register is loaded from the
address offset field every cycle. -/
theorem registered_offset_read (c : Config) (s : CacheState) (i i' : Inputs) :
    (outputs c s i).wb_dat_r = chooser c (s.data_mem s.data_adr_r) s.adr_offset_r ∧
      (step c s i).adr_offset_r = adr_offset c i.wb_adr ∧
      (step c s i).data_adr_r = adr_line c i.wb_adr ∧
      (outputs c (step c s i) i').wb_dat_r =
        chooser c ((step c s i).data_mem (adr_line c i.wb_adr)) (adr_offset c i.wb_adr) :=
  ⟨rfl, rfl, rfl, rfl⟩

/-- Claim C5 (amended): the computed field widths satisfy the
source's formulas, and splitting an address into offset, line and tag
fields and reassembling them is the identity; however the field
widths sum to `addressbits + offsetbits`, which exceeds the full
address width `addressbits = lasmim.aw + offsetbits` by `offsetbits`
whenever the offset field is non-degenerate, because the source sets
`tagbits = addressbits - linebits` rather than
`addressbits - linebits - offsetbits`. -/
theorem addr_split_fields (c : Config) (hlb : linebits c ≤ addressbits c) :
    offsetbits c = flog2 (c.lasmim_dw / c.wb_data_width) ∧
      (∀ k, c.lasmim_dw / c.wb_data_width = 2 ^ k → offsetbits c = k) ∧
      linebits c = flog2 c.cachesize - offsetbits c ∧
      tagbits c = addressbits c - linebits c ∧
      offsetbits c + linebits c + tagbits c = addressbits c + offsetbits c ∧
      (∀ a, a < 2 ^ (offsetbits c + linebits c + tagbits c) →
        adr_offset c a + 2 ^ offsetbits c * adr_line c a +
          2 ^ (offsetbits c + linebits c) * adr_tag c a = a) := by
  refine ⟨rfl, ?_, rfl, rfl, ?_, ?_⟩
  · intro k hk
    unfold offsetbits
    rw [hk, flog2_two_pow]
  · unfold tagbits
    omega
  · intro a ha
    have hdiv : a / 2 ^ (offsetbits c + linebits c) < 2 ^ tagbits c := by
      rw [Nat.div_lt_iff_lt_mul (Nat.pos_pow_of_pos _ (by omega))]
      calc a < 2 ^ (offsetbits c + linebits c + tagbits c) := ha
        _ = 2 ^ tagbits c * 2 ^ (offsetbits c + linebits c) := by
            rw [← pow_add, Nat.add_comm]
    have h1 : a % 2 ^ offsetbits c + 2 ^ offsetbits c * (a / 2 ^ offsetbits c) = a :=
      Nat.mod_add_div a _
    have h2 : a / 2 ^ offsetbits c % 2 ^ linebits c +
        2 ^ linebits c * (a / 2 ^ offsetbits c / 2 ^ linebits c) = a / 2 ^ offsetbits c :=
      Nat.mod_add_div _ _
    have h3 : a / 2 ^ offsetbits c / 2 ^ linebits c = a / 2 ^ (offsetbits c + linebits c) := by
      rw [Nat.div_div_eq_div_mul, pow_add]
    unfold adr_offset adr_line adr_tag
    rw [Nat.mod_eq_of_lt hdiv]
    calc a % 2 ^ offsetbits c + 2 ^ offsetbits c * (a / 2 ^ offsetbits c % 2 ^ linebits c) +
          2 ^ (offsetbits c + linebits c) * (a / 2 ^ (offsetbits c + linebits c))
        = a % 2 ^ offsetbits c +
            2 ^ offsetbits c * (a / 2 ^ offsetbits c % 2 ^ linebits c +
              2 ^ linebits c * (a / 2 ^ (offsetbits c + linebits c))) := by
          rw [pow_add]
          ring
      _ = a % 2 ^ offsetbits c + 2 ^ offsetbits c * (a / 2 ^ offsetbits c) := by
          rw [← h3, h2]
      _ = a := h1

/-- Claim C1: in TEST_HIT, when the tag stored for the current line
equals the request tag the controller asserts ack, returns to IDLE,
and on a write also writes the tag store marking the slot dirty; on a
mismatch with the slot dirty it moves to EVICT_REQUEST, on a mismatch
with the slot clean it moves to REFILL_WRTAG, and from there no
EVICT-path state is ever visited before the request is re-tested in
TEST_HIT. -/
theorem testHit_transitions (c : Config) (s : CacheState) (i : Inputs)
    (hf : s.fsm = .TEST_HIT) (hta : s.tag_adr_r = adr_line c i.wb_adr) :
    ((s.tag_mem (adr_line c i.wb_adr)).1 % 2 ^ tagbits c = adr_tag c i.wb_adr →
        (outputs c s i).wb_ack = true ∧ (step c s i).fsm = .IDLE ∧
        (i.wb_we = true →
          (step c s i).tag_mem (adr_line c i.wb_adr) = (adr_tag c i.wb_adr, true))) ∧
      (¬(s.tag_mem (adr_line c i.wb_adr)).1 % 2 ^ tagbits c = adr_tag c i.wb_adr →
        (outputs c s i).wb_ack = false ∧
        ((s.tag_mem (adr_line c i.wb_adr)).2 = true →
          (step c s i).fsm = .EVICT_REQUEST) ∧
        ((s.tag_mem (adr_line c i.wb_adr)).2 = false →
          (step c s i).fsm = .REFILL_WRTAG)) ∧
      (¬(s.tag_mem (adr_line c i.wb_adr)).1 % 2 ^ tagbits c = adr_tag c i.wb_adr →
        (s.tag_mem (adr_line c i.wb_adr)).2 = false →
        ∀ ins n, (∀ m, m < n → (run c (step c s i) ins m).fsm ≠ .TEST_HIT) →
          isEvictState (run c (step c s i) ins n).fsm = false) := by
  have hst : storedTag c s = (s.tag_mem (adr_line c i.wb_adr)).1 % 2 ^ tagbits c := by
    unfold storedTag
    rw [hta]
  have hsd : storedDirty s = (s.tag_mem (adr_line c i.wb_adr)).2 := by
    unfold storedDirty
    rw [hta]
  refine ⟨?_, ?_, ?_⟩
  · intro hm
    have hmatch : tagMatch c s i = true := by
      unfold tagMatch
      rw [hst, hm]
      exact beq_self_eq_true _
    refine ⟨by rw [outputs_wb_ack, hf, hmatch]; rfl,
      by rw [step_fsm, nextFsm_test_hit c s i hf, if_pos hmatch], ?_⟩
    intro hwe
    have htagwe : (outputs c s i).tag_we = true := by
      rw [outputs_tag_we, hf, hmatch, hwe]
      rfl
    rw [step_tag_mem_written c s i htagwe, outputs_tag_di, hf, hmatch, hwe]
    rfl
  · intro hm
    have hmatch : tagMatch c s i = false := by
      unfold tagMatch
      rw [hst]
      exact beq_eq_false_iff_ne.mpr hm
    refine ⟨by rw [outputs_wb_ack, hf, hmatch]; rfl, ?_, ?_⟩
    · intro hdirty
      have hd' : storedDirty s = true := by rw [hsd]; exact hdirty
      rw [step_fsm, nextFsm_test_hit c s i hf, if_neg (by simp [hmatch]),
        if_pos hd']
    · intro hclean
      have hd' : storedDirty s = false := by rw [hsd]; exact hclean
      rw [step_fsm, nextFsm_test_hit c s i hf, if_neg (by simp [hmatch]),
        if_neg (by simp [hd'])]
  · intro hm hclean ins n hn
    have hmatch : tagMatch c s i = false := by
      unfold tagMatch
      rw [hst]
      exact beq_eq_false_iff_ne.mpr hm
    have hd' : storedDirty s = false := by rw [hsd]; exact hclean
    have hs1 : (step c s i).fsm = .REFILL_WRTAG := by
      rw [step_fsm, nextFsm_test_hit c s i hf, if_neg (by simp [hmatch]),
        if_neg (by simp [hd'])]
    rcases refill_phase_run c (step c s i) ins (by rw [hs1]; rfl) n hn with h | h
    · exact refill_phase_not_evict _ h
    · rw [h]
      rfl

/-- Claim C4: after the back-end data-ack is observed in
EVICT_WAIT_DATA_ACK (resp. REFILL_WAIT_DATA_ACK), the FSM spends
exactly `write_latency − 1` (resp. `read_latency − 1`) cycles in
anonymous delay sub-states during which it produces no observable
output and writes neither store, and reaches EVICT_DATA
(resp. REFILL_DATA) exactly then; with latency 1 the delay is empty
and the transition is immediate. -/
theorem delayed_enter_timing (c : Config) (s : CacheState) (i0 : Inputs)
    (ins : Nat → Inputs) :
    (s.fsm = .EVICT_WAIT_DATA_ACK → i0.dat_ack = true →
      (∀ j, j < c.write_latency - 1 →
        (run c (step c s i0) ins j).fsm = .EVICT_DELAY (c.write_latency - 1 - j) ∧
        quietOutputs (outputs c (run c (step c s i0) ins j) (ins j)) ∧
        (run c (step c s i0) ins j).tag_mem = s.tag_mem ∧
        (run c (step c s i0) ins j).data_mem = s.data_mem) ∧
      (run c (step c s i0) ins (c.write_latency - 1)).fsm = .EVICT_DATA ∧
      (run c (step c s i0) ins (c.write_latency - 1)).tag_mem = s.tag_mem ∧
      (run c (step c s i0) ins (c.write_latency - 1)).data_mem = s.data_mem) ∧
    (s.fsm = .REFILL_WAIT_DATA_ACK → i0.dat_ack = true →
      (∀ j, j < c.read_latency - 1 →
        (run c (step c s i0) ins j).fsm = .REFILL_DELAY (c.read_latency - 1 - j) ∧
        quietOutputs (outputs c (run c (step c s i0) ins j) (ins j)) ∧
        (run c (step c s i0) ins j).tag_mem = s.tag_mem ∧
        (run c (step c s i0) ins j).data_mem = s.data_mem) ∧
      (run c (step c s i0) ins (c.read_latency - 1)).fsm = .REFILL_DATA ∧
      (run c (step c s i0) ins (c.read_latency - 1)).tag_mem = s.tag_mem ∧
      (run c (step c s i0) ins (c.read_latency - 1)).data_mem = s.data_mem) := by
  constructor
  · intro hf hack
    have hs1f : (step c s i0).fsm = evictDelaySt (c.write_latency - 1) := by
      rw [step_fsm, nextFsm_evict_wait c s i0 hf, if_pos hack]
    have hpres := step_preserves_mems c s i0 (by rw [hf]; rfl) (by rw [hf]; rfl)
      (by rw [hf]; rfl)
    have hchain := evict_delay_chain c (step c s i0) ins (c.write_latency - 1) hs1f
    refine ⟨?_, ?_, ?_, ?_⟩
    · intro j hj
      obtain ⟨hjf, hjt, hjd⟩ := hchain j (by omega)
      have hpos : c.write_latency - 1 - j = (c.write_latency - 1 - j - 1) + 1 := by
        omega
      rw [hpos] at hjf
      refine ⟨by rw [hpos, hjf]; rfl, ?_, by rw [hjt, hpres.1], by rw [hjd, hpres.2]⟩
      exact quiet_of_evict_delay c _ (ins j) _ hjf
    · obtain ⟨hjf, _, _⟩ := hchain (c.write_latency - 1) (le_refl _)
      rw [show c.write_latency - 1 - (c.write_latency - 1) = 0 by omega] at hjf
      exact hjf
    · obtain ⟨_, hjt, _⟩ := hchain (c.write_latency - 1) (le_refl _)
      rw [hjt, hpres.1]
    · obtain ⟨_, _, hjd⟩ := hchain (c.write_latency - 1) (le_refl _)
      rw [hjd, hpres.2]
  · intro hf hack
    have hs1f : (step c s i0).fsm = refillDelaySt (c.read_latency - 1) := by
      rw [step_fsm, nextFsm_refill_wait c s i0 hf, if_pos hack]
    have hpres := step_preserves_mems c s i0 (by rw [hf]; rfl) (by rw [hf]; rfl)
      (by rw [hf]; rfl)
    have hchain := refill_delay_chain c (step c s i0) ins (c.read_latency - 1) hs1f
    refine ⟨?_, ?_, ?_, ?_⟩
    · intro j hj
      obtain ⟨hjf, hjt, hjd⟩ := hchain j (by omega)
      have hpos : c.read_latency - 1 - j = (c.read_latency - 1 - j - 1) + 1 := by
        omega
      rw [hpos] at hjf
      refine ⟨by rw [hpos, hjf]; rfl, ?_, by rw [hjt, hpres.1], by rw [hjd, hpres.2]⟩
      exact quiet_of_refill_delay c _ (ins j) _ hjf
    · obtain ⟨hjf, _, _⟩ := hchain (c.read_latency - 1) (le_refl _)
      rw [show c.read_latency - 1 - (c.read_latency - 1) = 0 by omega] at hjf
      exact hjf
    · obtain ⟨_, hjt, _⟩ := hchain (c.read_latency - 1) (le_refl _)
      rw [hjt, hpres.1]
    · obtain ⟨_, _, hjd⟩ := hchain (c.read_latency - 1) (le_refl _)
      rw [hjd, hpres.2]

/-- Claim C2: a front-end write acknowledged in some cycle (whether
reached through the hit path or at the end of a miss sequence, both
of which ack only from TEST_HIT on a tag match), followed immediately
by a read of the same address, is acknowledged two cycles later with
exactly the written value on the read-data output. -/
theorem read_after_write (c : Config) (hg : GoodConfig c)
    (s : CacheState) (iw ir : Inputs)
    (hack : (outputs c s iw).wb_ack = true)
    (hwe : iw.wb_we = true) (hcyc : iw.wb_cyc = true) (hstb : iw.wb_stb = true)
    (hsel : iw.wb_sel = 2 ^ dw8 c - 1)
    (hdat : iw.wb_dat_w < 2 ^ c.wb_data_width)
    (hradr : ir.wb_adr = iw.wb_adr) (hrcyc : ir.wb_cyc = true)
    (hrstb : ir.wb_stb = true) (hrwe : ir.wb_we = false) :
    (outputs c (step c (step c s iw) ir) ir).wb_ack = true ∧
      (outputs c (step c (step c s iw) ir) ir).wb_dat_r = iw.wb_dat_w := by
  have hW := goodConfig_width c hg
  have hd8 := goodConfig_dw8_pos c hg
  have hnb := goodConfig_nbytes c hg
  have hoff := adr_offset_lt_ratio c hg iw.wb_adr
  rw [outputs_wb_ack, Bool.and_eq_true, isTestHit_iff] at hack
  obtain ⟨hfsm, hmatch⟩ := hack
  have htagwe : (outputs c s iw).tag_we = true := by
    rw [outputs_tag_we, hfsm, hmatch, hwe]
    rfl
  have hs1tag : (step c s iw).tag_mem (adr_line c iw.wb_adr) =
      (adr_tag c iw.wb_adr, true) := by
    rw [step_tag_mem_written c s iw htagwe, outputs_tag_di, hfsm, hmatch, hwe]
    rfl
  have hmask : (outputs c s iw).data_we =
      (2 ^ dw8 c - 1) * 2 ^ (dw8 c * adr_offset c iw.wb_adr) := by
    rw [outputs_data_we, hfsm, hmatch, hcyc, hstb, hwe]
    show displacerMask c iw.wb_sel (adr_offset c iw.wb_adr) = _
    unfold displacerMask
    rw [hsel, Nat.mod_eq_of_lt (by
      have := Nat.pos_pow_of_pos (dw8 c) (show 0 < 2 by omega)
      omega)]
  have hmasknz : ¬(outputs c s iw).data_we = 0 := by
    rw [hmask]
    have h1 : 0 < 2 ^ dw8 c - 1 := by
      have : (2:Nat) ^ 1 ≤ 2 ^ dw8 c := Nat.pow_le_pow_right (by omega) (by omega)
      have h2 : (2:Nat) ^ 1 = 2 := by norm_num
      omega
    have h2 : 0 < 2 ^ (dw8 c * adr_offset c iw.wb_adr) :=
      Nat.pos_pow_of_pos _ (by omega)
    have := Nat.mul_pos h1 h2
    omega
  have hdatw : (outputs c s iw).data_dat_w =
      replicate (ratio c) c.wb_data_width iw.wb_dat_w := by
    rw [outputs_data_dat_w, hfsm]
    rfl
  have hs1data : (step c s iw).data_mem (adr_line c iw.wb_adr) =
      maskedWrite (s.data_mem (adr_line c iw.wb_adr))
        (replicate (ratio c) c.wb_data_width iw.wb_dat_w)
        ((2 ^ dw8 c - 1) * 2 ^ (dw8 c * adr_offset c iw.wb_adr)) (nbytes c) := by
    rw [step_data_mem_written c s iw hmasknz, hdatw, hmask]
  have hs1f : (step c s iw).fsm = .IDLE := by
    rw [step_fsm, nextFsm_test_hit c s iw hfsm, if_pos hmatch]
  have hs2p := step_preserves_mems c (step c s iw) ir (by rw [hs1f]; rfl)
    (by rw [hs1f]; rfl) (by rw [hs1f]; rfl)
  have hs2f : (step c (step c s iw) ir).fsm = .TEST_HIT := by
    rw [step_fsm, nextFsm_idle c _ ir hs1f, hrcyc, hrstb]
    rfl
  have hs2st : storedTag c (step c (step c s iw) ir) = adr_tag c iw.wb_adr := by
    unfold storedTag
    rw [show (step c (step c s iw) ir).tag_adr_r = adr_line c ir.wb_adr from rfl]
    rw [hs2p.1, hradr, hs1tag]
    rw [show ((adr_tag c iw.wb_adr, true) : Nat × Bool).1 = adr_tag c iw.wb_adr from rfl]
    rw [adr_tag_mod]
  have hs2match : tagMatch c (step c (step c s iw) ir) ir = true := by
    unfold tagMatch
    rw [hs2st, hradr]
    exact beq_self_eq_true _
  constructor
  · rw [outputs_wb_ack, hs2f, hs2match]
    rfl
  · rw [outputs_wb_dat_r]
    unfold data_do
    rw [show (step c (step c s iw) ir).data_adr_r = adr_line c ir.wb_adr from rfl]
    rw [show (step c (step c s iw) ir).adr_offset_r = adr_offset c ir.wb_adr from rfl]
    rw [hs2p.2, hradr, hs1data]
    exact chooser_maskedWrite_full c hW hd8 hnb _ _ _ hoff hdat

/-- Claim C6: a front-end write in TEST_HIT on a hit modifies only the
byte lanes of the cached line selected by the byte-selector displaced
to the offset's word lane: every byte position whose write-enable bit
is set lies in the word lane at the request offset and receives the
corresponding byte of the front-end word replicated across the line,
every byte position whose write-enable bit is clear keeps its prior
value, and every other line of the data store is untouched. -/
theorem byte_lane_write_frame (c : Config) (s : CacheState) (i : Inputs)
    (hg : GoodConfig c) (hf : s.fsm = .TEST_HIT)
    (hmatch : storedTag c s = adr_tag c i.wb_adr)
    (hcyc : i.wb_cyc = true) (hstb : i.wb_stb = true) (hwe : i.wb_we = true) :
    (∀ l, l ≠ adr_line c i.wb_adr → (step c s i).data_mem l = s.data_mem l) ∧
      (∀ j, displacerMask c i.wb_sel (adr_offset c i.wb_adr) / 2 ^ j % 2 = 1 →
        j / dw8 c = adr_offset c i.wb_adr) ∧
      (∀ j, j < nbytes c →
        displacerMask c i.wb_sel (adr_offset c i.wb_adr) / 2 ^ j % 2 = 0 →
        getByte ((step c s i).data_mem (adr_line c i.wb_adr)) j =
          getByte (s.data_mem (adr_line c i.wb_adr)) j) ∧
      (∀ j, j < nbytes c →
        displacerMask c i.wb_sel (adr_offset c i.wb_adr) / 2 ^ j % 2 = 1 →
        getByte ((step c s i).data_mem (adr_line c i.wb_adr)) j =
          getByte (i.wb_dat_w % 2 ^ c.wb_data_width) (j % dw8 c)) := by
  have hW := goodConfig_width c hg
  have hd8 := goodConfig_dw8_pos c hg
  have hnb := goodConfig_nbytes c hg
  have hmatch' : tagMatch c s i = true := by
    unfold tagMatch
    rw [hmatch]
    exact beq_self_eq_true _
  have hmask : (outputs c s i).data_we =
      displacerMask c i.wb_sel (adr_offset c i.wb_adr) := by
    rw [outputs_data_we, hf, hmatch', hcyc, hstb, hwe]
    rfl
  have hdatw : (outputs c s i).data_dat_w =
      replicate (ratio c) c.wb_data_width i.wb_dat_w := by
    rw [outputs_data_dat_w, hf]
    rfl
  refine ⟨?_, ?_, ?_, ?_⟩
  · intro l hl
    exact step_data_mem_other c s i l hl
  · intro j hbit
    exact displacerMask_lane c i.wb_sel _ j hd8 hbit
  · intro j hj hbit
    by_cases h0 : (outputs c s i).data_we = 0
    · rw [step_data_mem_of c s i h0]
    · rw [step_data_mem_written c s i h0, hdatw, hmask,
        getByte_maskedWrite _ _ _ _ _ hj]
      rw [if_neg (by omega)]
  · intro j hj hbit
    have h0 : ¬(outputs c s i).data_we = 0 := by
      rw [hmask]
      intro hzero
      rw [hzero] at hbit
      simp at hbit
    rw [step_data_mem_written c s i h0, hdatw, hmask,
      getByte_maskedWrite _ _ _ _ _ hj]
    rw [if_pos hbit]
    rw [hW]
    exact getByte_replicate (dw8 c) i.wb_dat_w (ratio c) j (by rw [hnb] at hj; omega)

/-- Claim C3: on a dirty-line miss in TEST_HIT (with the back end
acking immediately and the request held stable), the controller
traverses EVICT_REQUEST, EVICT_WAIT_DATA_ACK and the delay sub-states
into EVICT_DATA; in EVICT_DATA it presents the data store's current
full-line contents for the line, with the full back-end byte mask, at
the back-end address built from the line index and the OLD stored
tag; only afterwards does REFILL_WRTAG write the request tag with the
dirty bit cleared, after which the back-end address of the refill
request uses the NEW tag. -/
theorem dirty_miss_evict_path (c : Config) (s : CacheState) (i : Inputs)
    (hf : s.fsm = .TEST_HIT)
    (hta : s.tag_adr_r = adr_line c i.wb_adr)
    (hm : ¬(s.tag_mem (adr_line c i.wb_adr)).1 % 2 ^ tagbits c = adr_tag c i.wb_adr)
    (hd : (s.tag_mem (adr_line c i.wb_adr)).2 = true)
    (hbound : s.data_mem (adr_line c i.wb_adr) < 2 ^ c.lasmim_dw)
    (hra : i.req_ack = true) (hka : i.dat_ack = true) :
    (run c s (fun _ => i) 1).fsm = .EVICT_REQUEST ∧
      (outputs c (run c s (fun _ => i) 1) i).lasmim_stb = true ∧
      (outputs c (run c s (fun _ => i) 1) i).lasmim_we = true ∧
      (outputs c (run c s (fun _ => i) 1) i).lasmim_adr =
        adr_line c i.wb_adr + 2 ^ linebits c *
          ((s.tag_mem (adr_line c i.wb_adr)).1 % 2 ^ tagbits c) ∧
      (run c s (fun _ => i) 2).fsm = .EVICT_WAIT_DATA_ACK ∧
      (∀ j, j < c.write_latency - 1 →
        (run c s (fun _ => i) (3 + j)).fsm = .EVICT_DELAY (c.write_latency - 1 - j)) ∧
      (run c s (fun _ => i) (3 + (c.write_latency - 1))).fsm = .EVICT_DATA ∧
      (outputs c (run c s (fun _ => i) (3 + (c.write_latency - 1))) i).lasmim_dat_w =
        s.data_mem (adr_line c i.wb_adr) ∧
      (outputs c (run c s (fun _ => i) (3 + (c.write_latency - 1))) i).lasmim_dat_we =
        2 ^ nbytes c - 1 ∧
      (outputs c (run c s (fun _ => i) (3 + (c.write_latency - 1))) i).lasmim_adr =
        adr_line c i.wb_adr + 2 ^ linebits c *
          ((s.tag_mem (adr_line c i.wb_adr)).1 % 2 ^ tagbits c) ∧
      (run c s (fun _ => i) (3 + (c.write_latency - 1) + 1)).fsm = .REFILL_WRTAG ∧
      (run c s (fun _ => i) (3 + (c.write_latency - 1) + 2)).fsm = .REFILL_REQUEST ∧
      (run c s (fun _ => i) (3 + (c.write_latency - 1) + 2)).tag_mem
          (adr_line c i.wb_adr) = (adr_tag c i.wb_adr, false) ∧
      (outputs c (run c s (fun _ => i) (3 + (c.write_latency - 1) + 2)) i).lasmim_stb
          = true ∧
      (outputs c (run c s (fun _ => i) (3 + (c.write_latency - 1) + 2)) i).lasmim_adr =
        adr_line c i.wb_adr + 2 ^ linebits c * adr_tag c i.wb_adr := by
  have hmatch : tagMatch c s i = false := by
    unfold tagMatch storedTag
    rw [hta]
    exact beq_eq_false_iff_ne.mpr hm
  have hd' : storedDirty s = true := by
    unfold storedDirty
    rw [hta]
    exact hd
  have h1f : (run c s (fun _ => i) 1).fsm = .EVICT_REQUEST := by
    show (step c s i).fsm = _
    rw [step_fsm, nextFsm_test_hit c s i hf, if_neg (by simp [hmatch]), if_pos hd']
  have h1p : (run c s (fun _ => i) 1).tag_mem = s.tag_mem ∧
      (run c s (fun _ => i) 1).data_mem = s.data_mem := by
    show (step c s i).tag_mem = _ ∧ (step c s i).data_mem = _
    exact step_preserves_mems_miss c s i hmatch (by rw [hf]; rfl) (by rw [hf]; rfl)
  have h2f : (run c s (fun _ => i) 2).fsm = .EVICT_WAIT_DATA_ACK := by
    show (step c (run c s (fun _ => i) 1) i).fsm = _
    rw [step_fsm, nextFsm_evict_request c _ i h1f, if_pos hra]
  have h2p : (run c s (fun _ => i) 2).tag_mem = s.tag_mem ∧
      (run c s (fun _ => i) 2).data_mem = s.data_mem := by
    have hx := step_preserves_mems c (run c s (fun _ => i) 1) i
      (by rw [h1f]; rfl) (by rw [h1f]; rfl) (by rw [h1f]; rfl)
    exact ⟨hx.1.trans h1p.1, hx.2.trans h1p.2⟩
  have h3f : (run c s (fun _ => i) 3).fsm = evictDelaySt (c.write_latency - 1) := by
    show (step c (run c s (fun _ => i) 2) i).fsm = _
    rw [step_fsm, nextFsm_evict_wait c _ i h2f, if_pos hka]
  have h3p : (run c s (fun _ => i) 3).tag_mem = s.tag_mem ∧
      (run c s (fun _ => i) 3).data_mem = s.data_mem := by
    have hx := step_preserves_mems c (run c s (fun _ => i) 2) i
      (by rw [h2f]; rfl) (by rw [h2f]; rfl) (by rw [h2f]; rfl)
    exact ⟨hx.1.trans h2p.1, hx.2.trans h2p.2⟩
  have hchain := evict_delay_chain c (run c s (fun _ => i) 3) (fun _ => i)
    (c.write_latency - 1) h3f
  have hsplit : ∀ j, run c s (fun _ => i) (3 + j) =
      run c (run c s (fun _ => i) 3) (fun _ => i) j :=
    fun j => run_add c s (fun _ => i) 3 j
  have hEDf : (run c s (fun _ => i) (3 + (c.write_latency - 1))).fsm = .EVICT_DATA := by
    rw [hsplit]
    obtain ⟨hx, _, _⟩ := hchain (c.write_latency - 1) (le_refl _)
    rw [show c.write_latency - 1 - (c.write_latency - 1) = 0 by omega] at hx
    exact hx
  have hEDp : (run c s (fun _ => i) (3 + (c.write_latency - 1))).tag_mem = s.tag_mem ∧
      (run c s (fun _ => i) (3 + (c.write_latency - 1))).data_mem = s.data_mem := by
    rw [hsplit]
    obtain ⟨_, hxt, hxd⟩ := hchain (c.write_latency - 1) (le_refl _)
    exact ⟨hxt.trans h3p.1, hxd.trans h3p.2⟩
  have hEDregs := run_const_regs c s i (3 + (c.write_latency - 1)) (by omega)
  have h4f : (run c s (fun _ => i) (3 + (c.write_latency - 1) + 1)).fsm =
      .REFILL_WRTAG := by
    show (step c (run c s (fun _ => i) (3 + (c.write_latency - 1))) i).fsm = _
    rw [step_fsm, nextFsm_evict_data c _ i hEDf]
  have h5f : (run c s (fun _ => i) (3 + (c.write_latency - 1) + 2)).fsm =
      .REFILL_REQUEST := by
    show (step c (run c s (fun _ => i) (3 + (c.write_latency - 1) + 1)) i).fsm = _
    rw [step_fsm, nextFsm_refill_wrtag c _ i h4f]
  have htw : (outputs c (run c s (fun _ => i) (3 + (c.write_latency - 1) + 1)) i).tag_we
      = true := by
    rw [outputs_tag_we, h4f]
    rfl
  have h5tm : (run c s (fun _ => i) (3 + (c.write_latency - 1) + 2)).tag_mem
      (adr_line c i.wb_adr) = (adr_tag c i.wb_adr, false) := by
    show (step c (run c s (fun _ => i) (3 + (c.write_latency - 1) + 1)) i).tag_mem
      (adr_line c i.wb_adr) = _
    rw [step_tag_mem_written c _ i htw, outputs_tag_di, h4f]
    rfl
  have h5regs := run_const_regs c s i (3 + (c.write_latency - 1) + 2) (by omega)
  refine ⟨h1f, ?_, ?_, ?_, h2f, ?_, hEDf, ?_, ?_, ?_, h4f, h5f, h5tm, ?_, ?_⟩
  · rw [outputs_lasmim_stb, h1f]
    rfl
  · rw [outputs_lasmim_we, h1f]
    rfl
  · rw [outputs_lasmim_adr]
    unfold storedTag
    have h1ta : (run c s (fun _ => i) 1).tag_adr_r = adr_line c i.wb_adr := rfl
    rw [h1ta, h1p.1]
  · intro j hj
    rw [hsplit]
    obtain ⟨hx, _, _⟩ := hchain j (by omega)
    have hpos : c.write_latency - 1 - j = (c.write_latency - 1 - j - 1) + 1 := by omega
    rw [hpos] at hx
    rw [hpos, hx]
    rfl
  · rw [outputs_lasmim_dat_w, hEDf]
    show (if true = true then data_do (run c s (fun _ => i) (3 + (c.write_latency - 1)))
        % 2 ^ c.lasmim_dw else 0) = _
    rw [if_pos rfl]
    unfold data_do
    rw [hEDregs.2.1, hEDp.2, Nat.mod_eq_of_lt hbound]
  · rw [outputs_lasmim_dat_we, hEDf]
    rfl
  · rw [outputs_lasmim_adr]
    unfold storedTag
    rw [hEDregs.1, hEDp.1]
  · rw [outputs_lasmim_stb, h5f]
    rfl
  · rw [outputs_lasmim_adr]
    unfold storedTag
    rw [h5regs.1, h5tm]
    rw [show ((adr_tag c i.wb_adr, false) : Nat × Bool).1 = adr_tag c i.wb_adr from rfl]
    rw [adr_tag_mod]

/-- Counterexample for claim C5 as stated: for an 8-bit front end, a
32-bit back end and a 16-word cache over an 8-bit back-end address
space, the field widths are offset 2, line 2, tag 8, summing to 12,
while the full address width `addressbits` is 10. -/
theorem addr_width_sum_cex :
    offsetbits cfgA + linebits cfgA + tagbits cfgA ≠ addressbits cfgA := by
  decide

/-- Claim C7 (amended): construction succeeds exactly when the
claimed conditions hold together with two further ones the claim
omits — the width ratio must itself be a power of two (it is fed to
`log2_int`), and the cache capacity must be at least one full
back-end line (the line-bits count must not go negative). -/
theorem init_ok_iff (c : Config) : wb2lasmi_init c = .ok () ↔ initOk c := by
  unfold wb2lasmi_init log2_int initOk claimedOk
  by_cases h1 : c.lasmim_dw < c.wb_data_width <;>
    by_cases h2 : c.lasmim_dw % c.wb_data_width = 0 <;>
    by_cases h3 : 2 ^ flog2 (c.lasmim_dw / c.wb_data_width) =
      c.lasmim_dw / c.wb_data_width <;>
    by_cases h4 : 2 ^ flog2 c.cachesize = c.cachesize <;>
    by_cases h5 : flog2 c.cachesize < flog2 (c.lasmim_dw / c.wb_data_width) <;>
    by_cases h6 : c.write_latency < 1 ∨ c.read_latency < 1 <;>
    simp [h1, h2, h3, h4, h5, h6] <;> omega

/-- Counterexample for claim C7 as stated: with a 32-bit front end
and a 96-bit back end (ratio 3) over a 16-word cache with latencies
1, none of the claim's malformedness conditions holds, yet
construction fails, because `log2_int` rejects the non-power-of-two
width ratio. -/
theorem init_exactness_cex :
    (¬cfgC.lasmim_dw < cfgC.wb_data_width ∧
      cfgC.lasmim_dw % cfgC.wb_data_width = 0 ∧
      2 ^ flog2 cfgC.cachesize = cfgC.cachesize ∧
      1 ≤ cfgC.write_latency ∧ 1 ≤ cfgC.read_latency) ∧
      wb2lasmi_init cfgC = .error "Not a power of 2" :=
  ⟨by decide, rfl⟩

/-! Witness instantiations of the claims at concrete configurations,
states and requests. -/

/-- Witness for claim C1: from a clean-line miss in an 8/32-bit
configuration, two cycles into the refill sequence the FSM is not in
any EVICT state. -/
theorem testHit_transitions_witness :
    isEvictState (run cfgA (step cfgA sMissClean iWr) (fun _ => iWr) 2).fsm = false := by
  have h := testHit_transitions cfgA sMissClean iWr rfl rfl
  exact h.2.2 (by decide) (by decide) (fun _ => iWr) 2 (by decide)

/-- Witness for claim C2: writing 0xAB to address 5 on a hit and
reading address 5 on the next request returns 0xAB with ack. -/
theorem read_after_write_witness :
    (outputs cfgA (step cfgA (step cfgA sHit iWr) iRd) iRd).wb_ack = true ∧
      (outputs cfgA (step cfgA (step cfgA sHit iWr) iRd) iRd).wb_dat_r = iWr.wb_dat_w :=
  read_after_write cfgA (by unfold GoodConfig; decide) sHit iWr iRd
    (by decide) (by decide) (by decide) (by decide) (by decide) (by decide)
    (by decide) (by decide) (by decide) (by decide)

/-- Witness for claim C3: on a dirty-line miss with write latency 3,
the cycle in EVICT_DATA presents the line's original contents as the
back-end write data. -/
theorem dirty_miss_evict_path_witness :
    (outputs cfgA (run cfgA sMissDirty (fun _ => iWr)
        (3 + (cfgA.write_latency - 1))) iWr).lasmim_dat_w =
      sMissDirty.data_mem (adr_line cfgA iWr.wb_adr) := by
  have h := dirty_miss_evict_path cfgA sMissDirty iWr rfl rfl (by decide) (by decide)
    (by decide) (by decide) (by decide)
  exact h.2.2.2.2.2.2.2.1

/-- Witness for claim C4: with write latency 3, two delay cycles
after the data-ack the FSM is in EVICT_DATA. -/
theorem delayed_enter_timing_witness :
    (run cfgA (step cfgA sEvictWait iAck) (fun _ => iAck)
      (cfgA.write_latency - 1)).fsm = FsmState.EVICT_DATA := by
  have h := delayed_enter_timing cfgA sEvictWait iAck (fun _ => iAck)
  exact (h.1 rfl rfl).2.1

/-- Witness for claim C5: splitting address 933 into offset, line and
tag fields and concatenating them back yields 933. -/
theorem addr_split_fields_witness :
    adr_offset cfgA 933 + 2 ^ offsetbits cfgA * adr_line cfgA 933 +
      2 ^ (offsetbits cfgA + linebits cfgA) * adr_tag cfgA 933 = 933 := by
  have h := addr_split_fields cfgA (by decide)
  exact h.2.2.2.2.2 933 (by decide)

/-- Witness for claim C6: a hit write of one byte lane leaves byte 2
of the cached line unchanged. -/
theorem byte_lane_write_frame_witness :
    getByte ((step cfgA sHit iWr).data_mem (adr_line cfgA iWr.wb_adr)) 2 =
      getByte (sHit.data_mem (adr_line cfgA iWr.wb_adr)) 2 := by
  have h := byte_lane_write_frame cfgA sHit iWr (by unfold GoodConfig; decide) rfl
    (by decide) (by decide) (by decide) (by decide)
  exact h.2.2.1 2 (by decide) (by decide)

/-- Witness for claim C7: the 8/32-bit configuration with a 16-word
cache and latencies 3 and 2 is accepted by construction. -/
theorem init_ok_iff_witness : wb2lasmi_init cfgA = .ok () :=
  (init_ok_iff cfgA).mpr (by unfold initOk claimedOk; decide)

/-- Witness for claim C9: a cold store holding tag 0 acks a tag-0 read
and returns the uninitialized line contents. -/
theorem cold_tag_collision_hit_witness :
    (outputs cfgA sHit iRd).wb_ack = true ∧
      (outputs cfgA sHit iRd).wb_dat_r =
        chooser cfgA (sHit.data_mem sHit.data_adr_r) sHit.adr_offset_r ∧
      (step cfgA sHit iRd).fsm = FsmState.IDLE :=
  cold_tag_collision_hit cfgA sHit iRd rfl rfl (by decide)

/-- Witness for claim C10: ack is asserted in TEST_HIT when the stored
tag equals the request tag. -/
theorem ack_iff_tagmatch_testhit_witness :
    (outputs cfgA sHit iWr).wb_ack = true :=
  (ack_iff_tagmatch_testhit cfgA sHit iWr).mpr ⟨rfl, by decide⟩

end WB2LASMI
